import Mathlib

/-!
Shallow embedding of the game-rank-analyzer scripts
(`fetch_ios_rss.py`, `analyze_rank_movers.py`, `fetch_app_updates.py`,
`classify_games.py`, `classify_games .py`, `sync_overrides.py`)
and proofs about the behaviour its specification claims.

Python dicts are modelled as insertion-ordered association lists with
string keys; `dinsert` is `d[k] = v` (update in place, else append) and
`dlookup` is `d.get(k)`.  Fallible reads (`read_json`, missing files)
are modelled with `Option`.
-/

namespace GameRank

/-- A Python dict with string keys, as an insertion-ordered association
list.  All dicts built by the scripts start empty and are populated with
`dinsert`, so keys are unique. -/
abbrev Dict (α : Type) := List (String × α)

/-- Python's `<` on strings: lexicographic comparison of code points. -/
def pyCharsLt : List Char → List Char → Bool
  | [], [] => false
  | [], _ :: _ => true
  | _ :: _, [] => false
  | a :: as, b :: bs => if a < b then true else if b < a then false else pyCharsLt as bs

/-- Python's `a < b` on strings. -/
def pyLt (a b : String) : Bool :=
  pyCharsLt a.data b.data

/-- Python's `s.startswith(pre)`. -/
def pyStartsWith (s pre : String) : Bool :=
  pre.data.isPrefixOf s.data

/-- Python's `s.endswith(suf)`. -/
def pyEndsWith (s suf : String) : Bool :=
  suf.data.isSuffixOf s.data

/-- Python's `s.strip()`: drop whitespace at both ends. -/
def pyStrip (s : String) : String :=
  ⟨(((s.data.dropWhile Char.isWhitespace).reverse.dropWhile Char.isWhitespace).reverse)⟩

/-- Python's `s.lower()`, per character. -/
def pyLower (s : String) : String :=
  ⟨s.data.map Char.toLower⟩

/-- Python's `list.index(x)` (as an `Option` instead of `ValueError`):
index of the first occurrence. -/
def pyIndex (l : List String) (x : String) : Option Nat :=
  match l with
  | [] => none
  | a :: t => if a = x then some 0 else (pyIndex t x).map (· + 1)

/-- `d[k] = v`: replace the value at an existing key in place, otherwise
append the new binding at the end (Python dict update semantics). -/
def dinsert {α : Type} (m : Dict α) (k : String) (v : α) : Dict α :=
  match m with
  | [] => [(k, v)]
  | (k', v') :: t => if k' = k then (k, v) :: t else (k', v') :: dinsert t k v

/-- `d.get(k)`: the value bound to the first occurrence of key `k`. -/
def dlookup {α : Type} (m : Dict α) (k : String) : Option α :=
  match m with
  | [] => none
  | (k', v) :: t => if k' = k then some v else dlookup t k


/-- A loop of the shape `for x in l: if g(x) is not None: d[k_x] = v_x`,
which is how every dict in the scripts is built. -/
def foldInsert {α β : Type} (g : β → Option (String × α)) (l : List β) (init : Dict α) :
    Dict α :=
  l.foldl (fun m x =>
    match g x with
    | none => m
    | some kv => dinsert m kv.1 kv.2) init


namespace FetchIosRss

/-- `safe_int(v, default=0)` from `fetch_ios_rss.py`: the input is modelled
after parsing, `none` standing for a value on which `int(float(v))`
raises; such values fall back to the default `0`. -/
def safe_int (v : Option Int) (default : Int) : Int :=
  match v with
  | some n => n
  | none => default

/-- The predecessor-date lookup of `load_prev_rank` (`fetch_ios_rss.py`
lines 70-89): `dates.index(date_str)` then the next entry of the
newest-first list; on `ValueError`, the first entry `< date_str`, where a
falsy (empty) find result is treated as absence (`if not prev_date_str`). -/
def prevDateOf (dates : List String) (dateStr : String) : Option String :=
  match pyIndex dates dateStr with
  | some i => dates[i + 1]?
  | none =>
    match dates.find? (fun d => pyLt d dateStr) with
    | some d => if d = "" then none else some d
    | none => none

/-- A row of a persisted rank snapshot, restricted to the fields
`load_prev_rank` reads. -/
structure PrevRow where
  app_id : String
  rank : Int
deriving DecidableEq, Repr

/-- A parsed rank-snapshot file; `none` at the call site models a file
that is missing, unparsable or falsy (`if not prev_data`). -/
structure PrevPayload where
  rows : List PrevRow
deriving DecidableEq, Repr

/-- `{r["app_id"]: r["rank"] for r in prev_data.get("rows", [])}`. -/
def buildRankMap (rows : List PrevRow) : Dict Int :=
  foldInsert (fun r => some (r.app_id, r.rank)) rows []

/-- `load_prev_rank` (`fetch_ios_rss.py` lines 60-101): find the
predecessor date, load that snapshot (the `store` argument models
`read_json` of the predecessor file, `none` for missing/unparsable/falsy
content), and build the `app_id → rank` map. -/
def load_prev_rank (dates : List String) (dateStr : String)
    (store : String → Option PrevPayload) : Option (Dict Int) :=
  match prevDateOf dates dateStr with
  | none => none
  | some prevDate =>
    match store prevDate with
    | none => none
    | some payload => some (buildRankMap payload.rows)

/-- A row grouped by `fetch_and_generate` (`fetch_ios_rss.py` lines
195-205), with the fields it creates; `delta` starts at `0`. -/
structure RssRow where
  rank : Int
  app_id : String
  app_name : String
  app_name_zh : String
  developer : String
  genre : String
  delta : Int
  alert : Bool
  ai_type : Option String
deriving DecidableEq, Repr

/-- The per-row body of the delta loop (`fetch_ios_rss.py` lines 221-227):
`if prev_rank and current_rank: r["delta"] = prev_rank - current_rank`,
where Python truthiness makes rank `0` (and an absent predecessor entry)
skip the subtraction. -/
def deltaRow (m : Dict Int) (r : RssRow) : RssRow :=
  match dlookup m r.app_id with
  | none => r
  | some prev =>
    if prev ≠ 0 ∧ r.rank ≠ 0 then { r with delta := prev - r.rank } else r

/-- The delta phase of `fetch_and_generate` (`fetch_ios_rss.py` lines
218-227): `if prev_rank_map:` guards the loop, so a `None` or empty map
leaves every row untouched. -/
def applyDeltaPass (prevMap : Option (Dict Int)) (rows : List RssRow) : List RssRow :=
  match prevMap with
  | none => rows
  | some m => if m = [] then rows else rows.map (deltaRow m)


end FetchIosRss

namespace AnalyzeMovers

/-- A stored snapshot row, restricted to the fields
`analyze_date_pair_movers` reads. -/
structure Row where
  app_id : String
  app_name : String
  rank : Int
deriving DecidableEq, Repr

/-- A parsed snapshot file; at call sites `none` models `load_rank`
returning `None` (file missing or unparsable) and likewise a falsy parse
(`if not today_data`). -/
structure Snap where
  rows : List Row
deriving DecidableEq, Repr

/-- A record of `movers` (`analyze_rank_movers.py` lines 69-73). -/
structure Mover where
  name : String
  delta : Int
  direction : String
deriving DecidableEq, Repr

/-- `{r["app_id"]: r["rank"] for r in yesterday_data["rows"]}`. -/
def prevMapOf (rows : List Row) : Dict Int :=
  foldInsert (fun r => some (r.app_id, r.rank)) rows []

/-- The candidate loop of `analyze_date_pair_movers` (lines 60-74): keep
apps on both charts whose rank moved by at least 10, with `rise` for a
positive delta and `fall` otherwise. -/
def moverCandidates (prevMap : Dict Int) (todayRows : List Row) : List Mover :=
  todayRows.filterMap (fun r =>
    match dlookup prevMap r.app_id with
    | none => none
    | some prev =>
      let d := prev - r.rank
      if 10 ≤ d.natAbs then
        some ⟨r.app_name, d, if 0 < d then "rise" else "fall"⟩
      else none)

/-- One step of the stable sort `movers.sort(key=lambda x: -abs(x["delta"]))`. -/
def insertByAbsDelta (x : Mover) : List Mover → List Mover
  | [] => [x]
  | y :: ys =>
    if y.delta.natAbs ≤ x.delta.natAbs then x :: y :: ys else y :: insertByAbsDelta x ys

/-- Stable sort by descending `|delta|` (Python `list.sort` with key
`-abs(delta)` is a stable sort). -/
def sortByAbsDelta : List Mover → List Mover
  | [] => []
  | x :: xs => insertByAbsDelta x (sortByAbsDelta xs)

/-- `analyze_date_pair_movers` (`analyze_rank_movers.py` lines 50-82):
empty when either snapshot is missing, otherwise the candidates sorted by
descending `|delta|` and truncated to 10. -/
def analyze_date_pair_movers (today_data yesterday_data : Option Snap) : List Mover :=
  match today_data, yesterday_data with
  | some today, some yesterday =>
    (sortByAbsDelta (moverCandidates (prevMapOf yesterday.rows) today.rows)).take 10
  | _, _ => []


end AnalyzeMovers

/-- The fixed seven-category set `AI_CATEGORIES`, defined identically in
`classify_games.py` and `classify_games .py`. -/
def AI_CATEGORIES : List String :=
  ["角色扮演", "社交賭場", "策略對戰", "動作競技", "模擬沙盒", "休閒益智", "其他"]

/-- Python's `needle in hay` on a list of characters. -/
def subListOf (needle : List Char) : List Char → Bool
  | [] => needle.isEmpty
  | c :: cs => needle.isPrefixOf (c :: cs) || subListOf needle cs

/-- Python's substring test `needle in hay`. -/
def containsSub (hay needle : String) : Bool :=
  subListOf needle.data hay.data

/-- A snapshot row as read by both classifier scripts: the fields
consulted (`app_id`, `app_name`, `genre`) and the mutated `ai_type`. -/
structure AppRow where
  app_id : String
  app_name : String
  genre : String
  ai_type : Option String
deriving DecidableEq, Repr

namespace ClassifyGamesHeur

/-- `classify_game` from `classify_games .py` (lines 23-46): the
deterministic keyword heuristic over lowercase name/genre, ending in the
catch-all `其他`. -/
def classify_game (app : AppRow) : String :=
  let name := pyLower app.app_name
  let genre := pyLower app.genre
  if ["rpg", "adventure", "role"].any (fun k => containsSub genre k) then "角色扮演"
  else if ["casino", "poker", "slot", "賭場"].any (fun k => containsSub name k) then "社交賭場"
  else if ["strategy", "war", "clash", "empire", "對戰", "戰鬥"].any
      (fun k => containsSub name k) then "策略對戰"
  else if ["action", "battle", "shooter", "moba", "動作", "競技"].any
      (fun k => containsSub name k) then "動作競技"
  else if ["sim", "tycoon", "farm", "city", "模擬", "沙盒"].any
      (fun k => containsSub name k) then "模擬沙盒"
  else if ["merge", "match", "puzzle", "idle", "休閒", "益智"].any
      (fun k => containsSub name k) then "休閒益智"
  else "其他"

/-- The per-row resolution of `process_country_folder` in
`classify_games .py` (lines 77-85): manual override first, else the
heuristic; the override map is never written. -/
def resolveRow (override_map : Dict String) (app : AppRow) : AppRow :=
  match dlookup override_map app.app_id with
  | some v => { app with ai_type := some v }
  | none => { app with ai_type := some (classify_game app) }

/-- The classification loop over one snapshot's rows. -/
def resolveRows (override_map : Dict String) (rows : List AppRow) : List AppRow :=
  rows.map (resolveRow override_map)

end ClassifyGamesHeur

namespace ClassifyGames

/-- `re.sub(r"^\d+\.\s*", "", s)` from `get_ai_classification`
(`classify_games.py` line 96): strip a leading `<digits>.<spaces>`
pattern when it matches. -/
def stripLeadingNumDot (s : String) : String :=
  let cs := s.data
  let ds := cs.takeWhile Char.isDigit
  let rest := cs.drop ds.length
  if ds.isEmpty then s
  else
    match rest with
    | '.' :: r => ⟨r.dropWhile Char.isWhitespace⟩
    | _ => s

/-- `get_ai_classification` (`classify_games.py` lines 54-116).
`clientOk` models whether the OpenAI client initialised; `response`
models the chat-completion call, `none` standing for a raised exception.
The raw answer is stripped, validated against `AI_CATEGORIES` exactly,
rescued by substring containment, and otherwise forced to `其他`. -/
def get_ai_classification (clientOk : Bool) (response : Option String) : String :=
  if !clientOk then "其他"
  else
    match response with
    | none => "其他"
    | some content =>
      let raw := pyStrip content
      let cleaned := pyStrip (stripLeadingNumDot raw)
      if AI_CATEGORIES.contains cleaned then cleaned
      else
        match AI_CATEGORIES.find? (fun cat => containsSub cleaned cat) with
        | some cat => cat
        | none => "其他"

/-- The per-row classification loop of `process_country_folder`
(`classify_games.py` lines 147-167): cache hit uses the cached value and
leaves the cache alone; a miss calls the classifier (`aiFun` is
`get_ai_classification` applied to the run's client/responses), stores
the result, and raises the per-file `is_cache_updated` flag.  Returns
(annotated rows, cache, flag). -/
def resolveRows (aiFun : AppRow → String) (cache : Dict String) (flag : Bool) :
    List AppRow → List AppRow × Dict String × Bool
  | [] => ([], cache, flag)
  | app :: rest =>
    match dlookup cache app.app_id with
    | some v =>
      let out := resolveRows aiFun cache flag rest
      ({ app with ai_type := some v } :: out.1, out.2)
    | none =>
      let c := aiFun app
      let out := resolveRows aiFun (dinsert cache app.app_id c) true rest
      ({ app with ai_type := some c } :: out.1, out.2)

/-- Parsed content of a rank-snapshot file, restricted to the fields
`process_country_folder` reads; `date?` is the result of
`datetime.strptime(date_str, "%Y-%m-%d")`, `none` when it raises. -/
structure Payload where
  rows : List AppRow
  chart : String
  country : String
  date? : Option String
deriving DecidableEq, Repr

/-- One file of a country folder: its name and its parsed content
(`none` models `read_json` yielding a falsy value). -/
structure RankFile where
  name : String
  payload : Option Payload
deriving DecidableEq, Repr

/-- The filename filters of `process_country_folder`
(`classify_games.py` lines 121-124). -/
def skipFile (f : RankFile) : Bool :=
  pyEndsWith f.name "_classified.json" || pyStartsWith f.name "available_dates_" ||
    !(pyStartsWith f.name "ios_" || pyStartsWith f.name "gp_")

/-- The file loop of `process_country_folder` (`classify_games.py` lines
120-193).  The `Option Bool` accumulator models the Python local
`is_cache_updated`, which is (re)assigned at line 145 only when a file
survives every skip, so it is `none` until the first processed file and
afterwards holds the **last** processed file's flag. -/
def folderLoop (aiFun : AppRow → String) (flag? : Option Bool) (cache : Dict String) :
    List RankFile → Option Bool × Dict String
  | [] => (flag?, cache)
  | f :: rest =>
    if skipFile f then folderLoop aiFun flag? cache rest
    else
      match f.payload with
      | none => folderLoop aiFun flag? cache rest
      | some payload =>
        match payload.date? with
        | none => folderLoop aiFun flag? cache rest
        | some _ =>
          let out := resolveRows aiFun cache false payload.rows
          folderLoop aiFun (some out.2.2) out.2.1 rest

/-- The exception raised by CPython when a function reads a local
variable that was never assigned. -/
inductive PyError where
  | unboundLocal
deriving DecidableEq, Repr

/-- `process_country_folder` (`classify_games.py` lines 118-193): run the
file loop and `return is_cache_updated`; if no file was processed the
local is unassigned and the return statement raises `UnboundLocalError`. -/
def process_country_folder (aiFun : AppRow → String) (files : List RankFile)
    (cache : Dict String) : Except PyError (Bool × Dict String) :=
  match folderLoop aiFun none cache files with
  | (some b, c) => Except.ok (b, c)
  | (none, _) => Except.error PyError.unboundLocal

/-- The folder loop of `main` (`classify_games.py` lines 210-226): thread
the cache through every country folder, OR together the per-folder
flags, and decide whether `save_json` runs.  An exception from a folder
propagates (there is no handler in `main`). -/
def classify_main (aiFun : AppRow → String) (cache : Dict String) (needSave : Bool) :
    List (List RankFile) → Except PyError (Bool × Dict String)
  | [] => Except.ok (needSave, cache)
  | files :: rest =>
    match process_country_folder aiFun files cache with
    | Except.error e => Except.error e
    | Except.ok (upd, c') => classify_main aiFun c' (needSave || upd) rest

end ClassifyGames

namespace FetchAppUpdates

/-- `TOP_LIMIT = 50` (`fetch_app_updates.py` line 29). -/
def TOP_LIMIT : Nat := 50

/-- The metadata record built from an Apple-lookup response
(`fetch_app_updates.py` lines 82-87 and 150-155). -/
structure MetaInfo where
  version : Option String
  updated : Option String
  releaseNotes : String
  app_id : Option String
deriving DecidableEq, Repr

/-- An emitted update: `dict(today_info)` plus the constant
`"event": "版本更新"` tag (`fetch_app_updates.py` lines 107-108). -/
structure UpdateEvent where
  info : MetaInfo
  event : String
deriving DecidableEq, Repr

/-- A stored snapshot row, restricted to the fields `process_date_pair`
reads; the empty string models a falsy `app_id`/`app_name`. -/
structure RankRow where
  app_id : String
  app_name : String
deriving DecidableEq, Repr

/-- A parsed snapshot file; `none` at call sites models
`load_rank_data` returning a falsy value. -/
structure RankPayload where
  rows : List RankRow
deriving DecidableEq, Repr

/-- `detect_updates` (`fetch_app_updates.py` lines 92-109): for every app
of today's metadata that has an entry of the same `app_name` in
yesterday's data, emit an event iff `version` or `updated` differ. -/
def detect_updates (today_data yesterday_data : Dict MetaInfo) : Dict UpdateEvent :=
  foldInsert (fun p =>
    match dlookup yesterday_data p.1 with
    | none => none
    | some y =>
      if p.2.version ≠ y.version ∨ p.2.updated ≠ y.updated then
        some (p.1, ⟨p.2, "版本更新"⟩)
      else none) today_data []

/-- `union_apps` (`fetch_app_updates.py` lines 124-131): the
`app_id → app_name` dict collected from the first `TOP_LIMIT` rows of
today's snapshot, keeping only truthy ids and names. -/
def union_apps_of (rows : List RankRow) : Dict String :=
  foldInsert
    (fun r => if r.app_id ≠ "" ∧ r.app_name ≠ "" then some (r.app_id, r.app_name) else none)
    (rows.take TOP_LIMIT) []

/-- The metadata-fetch loop (`fetch_app_updates.py` lines 142-159):
`fetchMeta` models `fetch_ios_metadata` (returning `None` on any
failure); an app whose lookup fails is left out of `today_data`. -/
def today_data_of (fetchMeta : String → Option MetaInfo) (ua : Dict String) :
    Dict MetaInfo :=
  foldInsert (fun p => (fetchMeta p.1).map (fun info => (p.2, info))) ua []

set_option linter.unusedVariables false in
/-- `process_date_pair` (`fetch_app_updates.py` lines 111-165) for one
(country, platform, chart, date-pair) unit.  `updatesArtifact` is the
content of `updates_{yday_str}.json` drilled to this unit's
(country, platform, chart) — the file the code reads at lines 138-139 as
its comparison baseline.  `metadataCacheArtifact` is the content of
`metadata_cache_{yday_str}.json` for the same unit — the baseline `main`
persists at lines 239-242 for the next run; the function never reads it.
Only `platform == "ios"` fetches metadata (lines 144-159). -/
def process_date_pair (fetchMeta : String → Option MetaInfo) (platform : String)
    (todayRank ydayRank : Option RankPayload)
    (updatesArtifact metadataCacheArtifact : Dict MetaInfo) :
    Dict UpdateEvent × Dict MetaInfo :=
  match todayRank, ydayRank with
  | some today, some _ =>
    let ua := union_apps_of today.rows
    if ua = [] then ([], [])
    else
      let baseline := updatesArtifact
      let today_data := if platform = "ios" then today_data_of fetchMeta ua else []
      (detect_updates today_data baseline, today_data)
  | _, _ => ([], [])

/-- The rows of an optional snapshot (empty when the snapshot is
missing). -/
def rowsOf : Option RankPayload → List RankRow
  | none => []
  | some p => p.rows

end FetchAppUpdates

end GameRank

/-!
## Library lemmas about the embedded operations
-/

namespace GameRank

@[simp] theorem dlookup_nil {α : Type} (k : String) : dlookup ([] : Dict α) k = none := rfl

@[simp] theorem dlookup_dinsert_self {α : Type} (m : Dict α) (k : String) (v : α) :
    dlookup (dinsert m k v) k = some v := by
  induction m with
  | nil => simp [dinsert, dlookup]
  | cons p t ih =>
    obtain ⟨k', v'⟩ := p
    by_cases h : k' = k
    · simp [dinsert, dlookup, h]
    · simp [dinsert, dlookup, h, ih]

theorem dlookup_dinsert_ne {α : Type} (m : Dict α) (k k' : String) (v : α) (h : k' ≠ k) :
    dlookup (dinsert m k v) k' = dlookup m k' := by
  have hk : ¬ k = k' := fun e => h e.symm
  induction m with
  | nil => simp [dinsert, dlookup, hk]
  | cons p t ih =>
    obtain ⟨k₀, v₀⟩ := p
    by_cases h₀ : k₀ = k
    · subst h₀
      simp [dinsert, dlookup, hk]
    · simp only [dinsert, if_neg h₀]
      by_cases h₁ : k₀ = k'
      · simp [dlookup, h₁]
      · simp [dlookup, h₁, ih]

theorem mem_dinsert {α : Type} {m : Dict α} {k : String} {v : α} {p : String × α}
    (hp : p ∈ dinsert m k v) : p ∈ m ∨ p = (k, v) := by
  induction m with
  | nil => simpa [dinsert] using hp
  | cons q t ih =>
    obtain ⟨k₀, v₀⟩ := q
    by_cases h₀ : k₀ = k
    · simp only [dinsert, if_pos h₀, List.mem_cons] at hp
      rcases hp with h | h
      · exact Or.inr h
      · exact Or.inl (List.mem_cons_of_mem _ h)
    · simp only [dinsert, if_neg h₀, List.mem_cons] at hp
      rcases hp with h | h
      · exact Or.inl (by simp [h])
      · rcases ih h with h' | h'
        · exact Or.inl (List.mem_cons_of_mem _ h')
        · exact Or.inr h'

theorem dlookup_eq_none_iff {α : Type} (m : Dict α) (k : String) :
    dlookup m k = none ↔ ∀ p ∈ m, p.1 ≠ k := by
  induction m with
  | nil => simp
  | cons p t ih =>
    obtain ⟨k', v⟩ := p
    by_cases h : k' = k <;> simp [dlookup, h, ih]

theorem exists_of_dlookup_eq_some {α : Type} {m : Dict α} {k : String} {v : α}
    (h : dlookup m k = some v) : (k, v) ∈ m := by
  induction m with
  | nil => simp [dlookup] at h
  | cons p t ih =>
    obtain ⟨k', v'⟩ := p
    by_cases h' : k' = k
    · subst h'
      simp [dlookup] at h
      simp [h]
    · simp only [dlookup, if_neg h'] at h
      exact List.mem_cons_of_mem _ (ih h)

@[simp] theorem foldInsert_nil {α β : Type} (g : β → Option (String × α)) (init : Dict α) :
    foldInsert g [] init = init := rfl

theorem foldInsert_cons {α β : Type} (g : β → Option (String × α)) (x : β) (l : List β)
    (init : Dict α) :
    foldInsert g (x :: l) init =
      foldInsert g l (match g x with | none => init | some kv => dinsert init kv.1 kv.2) := by
  cases h : g x <;> simp [foldInsert, List.foldl_cons, h]

/-- Every binding produced by a dict-building loop comes from the initial
dict or from some element of the iterated list. -/
theorem mem_foldInsert {α β : Type} {g : β → Option (String × α)} {l : List β}
    {init : Dict α} {p : String × α} (hp : p ∈ foldInsert g l init) :
    p ∈ init ∨ ∃ x ∈ l, g x = some p := by
  induction l generalizing init with
  | nil => exact Or.inl (by simpa using hp)
  | cons x t ih =>
    rw [foldInsert_cons] at hp
    cases hgx : g x with
    | none =>
      rcases ih (by simpa [hgx] using hp) with h | ⟨y, hy, hgy⟩
      · exact Or.inl h
      · exact Or.inr ⟨y, List.mem_cons_of_mem _ hy, hgy⟩
    | some kv =>
      rcases ih (by simpa [hgx] using hp) with h | ⟨y, hy, hgy⟩
      · rcases mem_dinsert h with h' | h'
        · exact Or.inl h'
        · exact Or.inr ⟨x, List.mem_cons_self _ _, by simp [hgx, h']⟩
      · exact Or.inr ⟨y, List.mem_cons_of_mem _ hy, hgy⟩

/-- If no iterated element produces key `k`, the loop leaves the lookup of
`k` untouched. -/
theorem dlookup_foldInsert_of_fresh {α β : Type} {g : β → Option (String × α)} {l : List β}
    {init : Dict α} {k : String} (h : ∀ x ∈ l, ∀ kv, g x = some kv → kv.1 ≠ k) :
    dlookup (foldInsert g l init) k = dlookup init k := by
  induction l generalizing init with
  | nil => simp
  | cons x t ih =>
    rw [foldInsert_cons]
    cases hgx : g x with
    | none => exact ih (fun y hy => h y (List.mem_cons_of_mem _ hy))
    | some kv =>
      show dlookup (foldInsert g t (dinsert init kv.1 kv.2)) k = dlookup init k
      rw [ih (fun y hy => h y (List.mem_cons_of_mem _ hy))]
      exact dlookup_dinsert_ne init kv.1 k kv.2
        (fun e => h x (List.mem_cons_self _ _) kv hgx e.symm)

/-- If every element that produces key `k` produces exactly `(k, v)` and at
least one element does, the loop ends with `k ↦ v`. -/
theorem dlookup_foldInsert_of_unique {α β : Type} {g : β → Option (String × α)} {l : List β}
    {init : Dict α} {k : String} {v : α}
    (huniq : ∀ y ∈ l, ∀ kv, g y = some kv → kv.1 = k → kv = (k, v))
    (hex : ∃ x ∈ l, g x = some (k, v)) :
    dlookup (foldInsert g l init) k = some v := by
  induction l generalizing init with
  | nil => simp at hex
  | cons x t ih =>
    rw [foldInsert_cons]
    by_cases hkt : ∃ y ∈ t, g y = some (k, v)
    · exact ih (fun y hy => huniq y (List.mem_cons_of_mem _ hy)) hkt
    · rcases hex with ⟨z, hz, hgz⟩
      rcases List.mem_cons.mp hz with hzx | hzt
      · subst hzx
        rw [hgz]
        rw [dlookup_foldInsert_of_fresh]
        · simp
        · intro y hy kv hkv hk1
          exact hkt ⟨y, hy, by rwa [huniq y (List.mem_cons_of_mem _ hy) kv hkv hk1] at hkv⟩
      · exact absurd ⟨z, hzt, hgz⟩ hkt

/-- Dict-building loops over the same list with pointwise-equal bodies
build the same dict. -/
theorem foldInsert_congr {α β : Type} {g g' : β → Option (String × α)} {l : List β}
    {init : Dict α} (h : ∀ x ∈ l, g x = g' x) :
    foldInsert g l init = foldInsert g' l init := by
  induction l generalizing init with
  | nil => rfl
  | cons x t ih =>
    rw [foldInsert_cons, foldInsert_cons, h x (List.mem_cons_self _ _)]
    exact ih (fun y hy => h y (List.mem_cons_of_mem _ hy))

theorem pyCharsLt_irrefl (l : List Char) : pyCharsLt l l = false := by
  induction l with
  | nil => rfl
  | cons a as ih => simp [pyCharsLt, ih]

theorem pyLt_irrefl (s : String) : pyLt s s = false :=
  pyCharsLt_irrefl s.data

theorem pyIndex_eq_none_iff (l : List String) (x : String) :
    pyIndex l x = none ↔ x ∉ l := by
  induction l with
  | nil => simp [pyIndex]
  | cons a t ih =>
    by_cases h : a = x
    · simp [pyIndex, h]
    · have h' : ¬ x = a := fun e => h e.symm
      simp [pyIndex, h, ih, h']

theorem pyIndex_append_cons (pre post : List String) (q : String)
    (h : ∀ a ∈ pre, a ≠ q) :
    pyIndex (pre ++ q :: post) q = some pre.length := by
  induction pre with
  | nil => simp [pyIndex]
  | cons a t ih =>
    have ha : ¬ a = q := h a (List.mem_cons_self _ _)
    simp [pyIndex, ha, ih (fun b hb => h b (List.mem_cons_of_mem _ hb))]

namespace FetchIosRss

@[simp] theorem deltaRow_nil (r : RssRow) : deltaRow [] r = r := rfl

theorem map_deltaRow_nil (rows : List RssRow) : rows.map (deltaRow []) = rows := by
  have h : deltaRow ([] : Dict Int) = id := funext fun r => rfl
  rw [h, List.map_id]

/-- An `app_id` on no predecessor row is absent from the rank map. -/
theorem buildRankMap_dlookup_of_not_mem {rows : List PrevRow} {k : String}
    (h : ∀ q ∈ rows, q.app_id ≠ k) : dlookup (buildRankMap rows) k = none := by
  unfold buildRankMap
  rw [dlookup_foldInsert_of_fresh]
  · rfl
  · intro x hx kv hkv
    cases hkv
    exact h x hx

/-- With unique predecessor `app_id`s, the rank map sends each row's
`app_id` to its rank. -/
theorem buildRankMap_dlookup_of_mem {rows : List PrevRow} {q : PrevRow}
    (hnodup : (rows.map PrevRow.app_id).Nodup) (hq : q ∈ rows) :
    dlookup (buildRankMap rows) q.app_id = some q.rank := by
  unfold buildRankMap
  apply dlookup_foldInsert_of_unique
  · intro y hy kv hkv hk1
    cases hkv
    have : y = q := List.inj_on_of_nodup_map hnodup hy hq hk1
    rw [this]
  · exact ⟨q, hq, rfl⟩

end FetchIosRss

namespace AnalyzeMovers

theorem mem_insertByAbsDelta {a x : Mover} {l : List Mover} :
    a ∈ insertByAbsDelta x l ↔ a = x ∨ a ∈ l := by
  induction l with
  | nil => simp [insertByAbsDelta]
  | cons y ys ih =>
    rw [insertByAbsDelta]
    by_cases hc : y.delta.natAbs ≤ x.delta.natAbs
    · simp [hc]
    · simp only [if_neg hc, List.mem_cons, ih]
      tauto

theorem mem_sortByAbsDelta {a : Mover} {l : List Mover} (h : a ∈ sortByAbsDelta l) :
    a ∈ l := by
  induction l with
  | nil => simp [sortByAbsDelta] at h
  | cons x xs ih =>
    rw [sortByAbsDelta] at h
    rcases mem_insertByAbsDelta.mp h with h' | h'
    · simp [h']
    · exact List.mem_cons_of_mem _ (ih h')

theorem pairwise_insertByAbsDelta {x : Mover} {l : List Mover}
    (h : List.Pairwise (fun a b => b.delta.natAbs ≤ a.delta.natAbs) l) :
    List.Pairwise (fun a b => b.delta.natAbs ≤ a.delta.natAbs) (insertByAbsDelta x l) := by
  induction l with
  | nil => simp [insertByAbsDelta]
  | cons y ys ih =>
    rcases List.pairwise_cons.mp h with ⟨hy, hys⟩
    rw [insertByAbsDelta]
    by_cases hc : y.delta.natAbs ≤ x.delta.natAbs
    · rw [if_pos hc]
      refine List.pairwise_cons.mpr ⟨?_, h⟩
      intro z hz
      rcases List.mem_cons.mp hz with hz | hz
      · exact hz ▸ hc
      · exact le_trans (hy z hz) hc
    · rw [if_neg hc]
      refine List.pairwise_cons.mpr ⟨?_, ih hys⟩
      intro z hz
      rcases mem_insertByAbsDelta.mp hz with hz | hz
      · subst hz
        omega
      · exact hy z hz

theorem pairwise_sortByAbsDelta (l : List Mover) :
    List.Pairwise (fun a b => b.delta.natAbs ≤ a.delta.natAbs) (sortByAbsDelta l) := by
  induction l with
  | nil => simp [sortByAbsDelta]
  | cons x xs ih => exact pairwise_insertByAbsDelta ih

end AnalyzeMovers

end GameRank

open GameRank

/-!
## Claim C10: zero ranks never produce a delta
-/

/-- C10: in the delta loop of `fetch_and_generate`, a row whose `rank` is
`0` (the `safe_int` ingestion default) keeps `delta = 0` even when its
`app_id` has a predecessor entry; a predecessor entry whose recorded rank
is `0` likewise never yields a nonzero delta; the subtraction
`prev_rank - current_rank` is performed only when both ranks are
nonzero. -/
theorem c10_zero_rank_delta (m : Dict Int) (r : FetchIosRss.RssRow) (h0 : r.delta = 0) :
    (r.rank = 0 → (FetchIosRss.deltaRow m r).delta = 0)
    ∧ (dlookup m r.app_id = some 0 → (FetchIosRss.deltaRow m r).delta = 0)
    ∧ ((FetchIosRss.deltaRow m r).delta ≠ 0 →
        r.rank ≠ 0 ∧ ∃ p, dlookup m r.app_id = some p ∧ p ≠ 0 ∧
          (FetchIosRss.deltaRow m r).delta = p - r.rank) := by
  refine ⟨fun hr => ?_, fun hl => ?_, fun hd => ?_⟩
  · cases hm : dlookup m r.app_id with
    | none => simp [FetchIosRss.deltaRow, hm, h0]
    | some p => simp [FetchIosRss.deltaRow, hm, hr, h0]
  · cases hm : dlookup m r.app_id with
    | none => simp [hm] at hl
    | some p =>
      have hp : p = 0 := by
        rw [hm] at hl
        exact Option.some.inj hl
      simp [FetchIosRss.deltaRow, hm, hp, h0]
  · cases hm : dlookup m r.app_id with
    | none => exact absurd (by simp [FetchIosRss.deltaRow, hm, h0]) hd
    | some p =>
      by_cases hc : p ≠ 0 ∧ r.rank ≠ 0
      · exact ⟨hc.2, p, rfl, hc.1, by simp [FetchIosRss.deltaRow, hm, hc]⟩
      · exact absurd (by simp [FetchIosRss.deltaRow, hm, hc, h0]) hd

/-- C10 witness: a concrete row with rank `0` whose `app_id` has a
predecessor entry of rank `5` keeps `delta = 0`. -/
theorem c10_zero_rank_delta_witness :
    (FetchIosRss.deltaRow [("a", (5 : Int))]
      ⟨0, "a", "A", "A", "dev", "Games", 0, false, none⟩).delta = 0 :=
  (c10_zero_rank_delta [("a", (5 : Int))]
    ⟨0, "a", "A", "A", "dev", "Games", 0, false, none⟩ rfl).1 rfl

/-!
## Claim C5: the mover extractor
-/

/-- C5: `analyze_date_pair_movers` returns at most 10 records, each for
an app present in both snapshots with `|predecessor_rank - current_rank|
≥ 10`, sorted by descending `|delta|`, with direction `rise` exactly when
the delta is positive and `fall` otherwise; a missing snapshot on either
side yields the empty list. -/
theorem c5_mover_extractor (t y : AnalyzeMovers.Snap) :
    (∀ o : Option AnalyzeMovers.Snap,
        AnalyzeMovers.analyze_date_pair_movers none o = []
        ∧ AnalyzeMovers.analyze_date_pair_movers o none = [])
    ∧ (AnalyzeMovers.analyze_date_pair_movers (some t) (some y)).length ≤ 10
    ∧ List.Pairwise (fun a b => b.delta.natAbs ≤ a.delta.natAbs)
        (AnalyzeMovers.analyze_date_pair_movers (some t) (some y))
    ∧ ∀ mv ∈ AnalyzeMovers.analyze_date_pair_movers (some t) (some y),
        10 ≤ mv.delta.natAbs
        ∧ mv.direction = (if 0 < mv.delta then "rise" else "fall")
        ∧ ∃ r ∈ t.rows, ∃ p ∈ y.rows, p.app_id = r.app_id ∧ mv.name = r.app_name
            ∧ mv.delta = p.rank - r.rank := by
  refine ⟨?_, ?_, ?_, ?_⟩
  · intro o
    exact ⟨by cases o <;> rfl, by cases o <;> rfl⟩
  · exact List.length_take_le _ _
  · exact List.Pairwise.sublist (List.take_sublist _ _) (AnalyzeMovers.pairwise_sortByAbsDelta _)
  · intro mv hmv
    have hmv' : mv ∈ AnalyzeMovers.moverCandidates
        (AnalyzeMovers.prevMapOf y.rows) t.rows :=
      AnalyzeMovers.mem_sortByAbsDelta (List.mem_of_mem_take hmv)
    rw [AnalyzeMovers.moverCandidates, List.mem_filterMap] at hmv'
    obtain ⟨r, hr, hf⟩ := hmv'
    cases hl : dlookup (AnalyzeMovers.prevMapOf y.rows) r.app_id with
    | none => simp [hl] at hf
    | some prev =>
      simp only [hl] at hf
      by_cases hd : 10 ≤ (prev - r.rank).natAbs
      · rw [if_pos hd] at hf
        have hmveq := (Option.some.inj hf).symm
        obtain ⟨p, hp, hpe⟩ : ∃ p ∈ y.rows, p.app_id = r.app_id ∧ p.rank = prev := by
          have hmem := exists_of_dlookup_eq_some hl
          rcases mem_foldInsert hmem with h | ⟨q, hq, hgq⟩
          · simp at h
          · have h2 := Option.some.inj hgq
            exact ⟨q, hq, congrArg Prod.fst h2, congrArg Prod.snd h2⟩
        subst hmveq
        exact ⟨hd, rfl, r, hr, p, hp, hpe.1, rfl, by rw [hpe.2]⟩
      · rw [if_neg hd] at hf
        simp at hf

/-- C5 witness: today `[Alpha #1, Beta #30]` versus yesterday
`[Alpha #20, Beta #2]` makes Beta a `fall` mover with delta `-28`. -/
theorem c5_mover_extractor_witness :
    10 ≤ (AnalyzeMovers.Mover.mk "Beta" (-28) "fall").delta.natAbs
    ∧ (AnalyzeMovers.Mover.mk "Beta" (-28) "fall").direction
        = (if 0 < (AnalyzeMovers.Mover.mk "Beta" (-28) "fall").delta then "rise" else "fall")
    ∧ ∃ r ∈ ([⟨"A", "Alpha", 1⟩, ⟨"B", "Beta", 30⟩] : List AnalyzeMovers.Row),
        ∃ p ∈ ([⟨"A", "Alpha", 20⟩, ⟨"B", "Beta", 2⟩] : List AnalyzeMovers.Row),
          p.app_id = r.app_id ∧ (AnalyzeMovers.Mover.mk "Beta" (-28) "fall").name = r.app_name
            ∧ (AnalyzeMovers.Mover.mk "Beta" (-28) "fall").delta = p.rank - r.rank :=
  (c5_mover_extractor ⟨[⟨"A", "Alpha", 1⟩, ⟨"B", "Beta", 30⟩]⟩
    ⟨[⟨"A", "Alpha", 20⟩, ⟨"B", "Beta", 2⟩]⟩).2.2.2 _ (by decide)

/-!
## Claim C6: override precedence
-/

/-- C6: an `app_id` present in the override map resolves to the override
value regardless of the heuristic (`classify_games .py` lines 77-85); an
`app_id` present in the cache/override store resolves to its stored value
(`classify_games.py` lines 152-154); the resolver never overwrites or
removes an existing entry of the persistent cache over a whole run, and
writes an entry only for an `app_id` that was absent. -/
theorem c6_override_precedence :
    (∀ (om : Dict String) (app : AppRow) (v : String),
        dlookup om app.app_id = some v →
        (ClassifyGamesHeur.resolveRow om app).ai_type = some v)
    ∧ (∀ (aiFun : AppRow → String) (cache : Dict String) (flag : Bool) (app : AppRow)
        (rest : List AppRow) (v : String),
        dlookup cache app.app_id = some v →
        (ClassifyGames.resolveRows aiFun cache flag (app :: rest)).1.head?
          = some { app with ai_type := some v })
    ∧ (∀ (aiFun : AppRow → String) (cache : Dict String) (flag : Bool)
        (rows : List AppRow) (k : String) (v : String),
        dlookup cache k = some v →
        dlookup (ClassifyGames.resolveRows aiFun cache flag rows).2.1 k = some v)
    ∧ (∀ (aiFun : AppRow → String) (cache : Dict String) (flag : Bool)
        (rows : List AppRow) (k : String) (v' : String),
        dlookup (ClassifyGames.resolveRows aiFun cache flag rows).2.1 k = some v' →
        dlookup cache k = some v' ∨ dlookup cache k = none) := by
  refine ⟨?_, ?_, ?_, ?_⟩
  · intro om app v h
    simp [ClassifyGamesHeur.resolveRow, h]
  · intro aiFun cache flag app rest v h
    simp [ClassifyGames.resolveRows, h]
  · intro aiFun cache flag rows
    induction rows generalizing cache flag with
    | nil => intro k v h; exact h
    | cons app rest ih =>
      intro k v h
      cases hl : dlookup cache app.app_id with
      | some w =>
        simpa [ClassifyGames.resolveRows, hl] using ih cache flag k v h
      | none =>
        have hne : k ≠ app.app_id := fun e => by rw [e, hl] at h; cases h
        have h' : dlookup (dinsert cache app.app_id (aiFun app)) k = some v := by
          rw [dlookup_dinsert_ne _ _ _ _ hne]; exact h
        simpa [ClassifyGames.resolveRows, hl] using
          ih (dinsert cache app.app_id (aiFun app)) true k v h'
  · intro aiFun cache flag rows
    induction rows generalizing cache flag with
    | nil => intro k v' h; exact Or.inl h
    | cons app rest ih =>
      intro k v' h
      cases hl : dlookup cache app.app_id with
      | some w =>
        exact ih cache flag k v' (by simpa [ClassifyGames.resolveRows, hl] using h)
      | none =>
        have h' := ih (dinsert cache app.app_id (aiFun app)) true k v'
          (by simpa [ClassifyGames.resolveRows, hl] using h)
        by_cases hk : k = app.app_id
        · subst hk
          exact Or.inr hl
        · rcases h' with h' | h'
          · rw [dlookup_dinsert_ne _ _ _ _ hk] at h'
            exact Or.inl h'
          · rw [dlookup_dinsert_ne _ _ _ _ hk] at h'
            exact Or.inr h'

/-- C6 witness: app `7` has override `休閒益智`; both resolvers return it
and a run over that row leaves the stored entry intact. -/
theorem c6_override_precedence_witness :
    (ClassifyGamesHeur.resolveRow [("7", "休閒益智")] ⟨"7", "W", "Games", none⟩).ai_type
      = some "休閒益智"
    ∧ dlookup (ClassifyGames.resolveRows (fun _ => "策略對戰") [("7", "休閒益智")] false
        [⟨"7", "W", "Games", none⟩]).2.1 "7" = some "休閒益智" :=
  ⟨c6_override_precedence.1 [("7", "休閒益智")] ⟨"7", "W", "Games", none⟩ "休閒益智" (by decide),
   c6_override_precedence.2.2.1 (fun _ => "策略對戰") [("7", "休閒益智")] false
     [⟨"7", "W", "Games", none⟩] "7" "休閒益智" (by decide)⟩

/-!
## Claim C7: the fixed category set
-/

/-- C7: every resolved `ai_type` is one of the seven fixed categories:
an unconfigured or failing external classifier yields `其他`; a response
outside the set is rescued by substring containment or mapped to `其他`;
the validated classifier result is always in the set; the heuristic's
priority chain always ends in the catch-all; and a run of either
resolver (given a well-formed override/cache store, whose values are in
the fixed set per the data model) annotates every row with a category
from the set, never `none`. -/
theorem c7_fixed_category_set :
    (∀ r, ClassifyGames.get_ai_classification false r = "其他")
    ∧ ClassifyGames.get_ai_classification true none = "其他"
    ∧ (∀ ok r, ClassifyGames.get_ai_classification ok r ∈ AI_CATEGORIES)
    ∧ (∀ content cat,
        AI_CATEGORIES.contains
            (pyStrip (ClassifyGames.stripLeadingNumDot (pyStrip content))) = false →
        AI_CATEGORIES.find?
            (fun c => containsSub
              (pyStrip (ClassifyGames.stripLeadingNumDot (pyStrip content))) c) = some cat →
        ClassifyGames.get_ai_classification true (some content) = cat)
    ∧ (∀ content,
        AI_CATEGORIES.contains
            (pyStrip (ClassifyGames.stripLeadingNumDot (pyStrip content))) = false →
        AI_CATEGORIES.find?
            (fun c => containsSub
              (pyStrip (ClassifyGames.stripLeadingNumDot (pyStrip content))) c) = none →
        ClassifyGames.get_ai_classification true (some content) = "其他")
    ∧ (∀ app, ClassifyGamesHeur.classify_game app ∈ AI_CATEGORIES)
    ∧ (∀ (om : Dict String) (app : AppRow), (∀ q ∈ om, q.2 ∈ AI_CATEGORIES) →
        ∃ c ∈ AI_CATEGORIES, (ClassifyGamesHeur.resolveRow om app).ai_type = some c)
    ∧ (∀ (ok : Bool) (oracle : AppRow → Option String) (cache : Dict String) (flag : Bool)
        (rows : List AppRow), (∀ q ∈ cache, q.2 ∈ AI_CATEGORIES) →
        ∀ row ∈ (ClassifyGames.resolveRows
            (fun app => ClassifyGames.get_ai_classification ok (oracle app))
            cache flag rows).1,
          ∃ c ∈ AI_CATEGORIES, row.ai_type = some c) := by
  have hmem : ∀ ok r, ClassifyGames.get_ai_classification ok r ∈ AI_CATEGORIES := by
    intro ok r
    cases ok with
    | false => simp [ClassifyGames.get_ai_classification, AI_CATEGORIES]
    | true =>
      cases r with
      | none => simp [ClassifyGames.get_ai_classification, AI_CATEGORIES]
      | some content =>
        rw [ClassifyGames.get_ai_classification]
        simp only [Bool.not_true, Bool.false_eq_true, if_false]
        by_cases hc : AI_CATEGORIES.contains
            (pyStrip (ClassifyGames.stripLeadingNumDot (pyStrip content))) = true
        · rw [if_pos hc]
          exact List.elem_iff.mp hc
        · rw [if_neg hc]
          cases hf : AI_CATEGORIES.find?
              (fun c => containsSub
                (pyStrip (ClassifyGames.stripLeadingNumDot (pyStrip content))) c) with
          | none => simp [AI_CATEGORIES]
          | some cat => exact List.mem_of_find?_eq_some hf
  have hheur : ∀ app, ClassifyGamesHeur.classify_game app ∈ AI_CATEGORIES := by
    intro app
    rw [ClassifyGamesHeur.classify_game]
    repeat' split
    all_goals simp [AI_CATEGORIES]
  refine ⟨fun r => rfl, rfl, hmem, ?_, ?_, hheur, ?_, ?_⟩
  · intro content cat hc hf
    rw [ClassifyGames.get_ai_classification]
    simp only [Bool.not_true, Bool.false_eq_true, if_false]
    rw [if_neg (ne_true_of_eq_false hc), hf]
  · intro content hc hf
    rw [ClassifyGames.get_ai_classification]
    simp only [Bool.not_true, Bool.false_eq_true, if_false]
    rw [if_neg (ne_true_of_eq_false hc), hf]
  · intro om app hwf
    rw [ClassifyGamesHeur.resolveRow]
    cases hl : dlookup om app.app_id with
    | none => exact ⟨ClassifyGamesHeur.classify_game app, hheur app, rfl⟩
    | some v => exact ⟨v, hwf (app.app_id, v) (exists_of_dlookup_eq_some hl), rfl⟩
  · intro ok oracle cache flag rows
    induction rows generalizing cache flag with
    | nil => intro _ row hrow; simp [ClassifyGames.resolveRows] at hrow
    | cons app rest ih =>
      intro hwf row hrow
      cases hl : dlookup cache app.app_id with
      | some v =>
        simp only [ClassifyGames.resolveRows, hl, List.mem_cons] at hrow
        rcases hrow with hrow | hrow
        · exact ⟨v, hwf (app.app_id, v) (exists_of_dlookup_eq_some hl), by rw [hrow]⟩
        · exact ih cache flag hwf row hrow
      | none =>
        simp only [ClassifyGames.resolveRows, hl, List.mem_cons] at hrow
        rcases hrow with hrow | hrow
        · exact ⟨_, hmem ok (oracle app), by rw [hrow]⟩
        · refine ih (dinsert cache app.app_id
              (ClassifyGames.get_ai_classification ok (oracle app))) true ?_ row hrow
          intro q hq
          rcases mem_dinsert hq with h | h
          · exact hwf q h
          · rw [h]
            exact hmem ok (oracle app)

/-- C7 witness: a malformed response `"1. 角色扮演遊戲"` is rescued by
substring containment to `角色扮演`, and an unconfigured classifier
yields `其他`. -/
theorem c7_fixed_category_set_witness :
    ClassifyGames.get_ai_classification true (some "1. 角色扮演遊戲") = "角色扮演"
    ∧ ClassifyGames.get_ai_classification false (some "動作") = "其他" :=
  ⟨c7_fixed_category_set.2.2.2.1 "1. 角色扮演遊戲" "角色扮演" (by decide) (by decide),
   c7_fixed_category_set.1 (some "動作")⟩

/-!
## Claim C4: the delta engine
-/

/-- C4: for a current snapshot (rows with `delta = 0` after grouping and
positive ranks, per the data model), if no predecessor date exists or the
predecessor snapshot is absent (`load_prev_rank` returns `None`), every
row's delta stays `0`; otherwise, when the predecessor snapshot has
positive ranks and unique `app_id`s, the delta pass maps `deltaRow` over
the rows, each row whose `app_id` appears in the predecessor gets
`delta = predecessor_rank - current_rank`, and each row absent from the
predecessor keeps `delta = 0`. -/
theorem c4_delta_engine (dates : List String) (dateStr : String)
    (store : String → Option FetchIosRss.PrevPayload) (rows : List FetchIosRss.RssRow)
    (h0 : ∀ r ∈ rows, r.delta = 0)
    (hcur : ∀ r ∈ rows, 1 ≤ r.rank) :
    (FetchIosRss.load_prev_rank dates dateStr store = none →
      FetchIosRss.applyDeltaPass (FetchIosRss.load_prev_rank dates dateStr store) rows = rows
      ∧ ∀ r ∈ FetchIosRss.applyDeltaPass (FetchIosRss.load_prev_rank dates dateStr store) rows,
          r.delta = 0)
    ∧ (∀ prevDate payload, FetchIosRss.prevDateOf dates dateStr = some prevDate →
        store prevDate = some payload →
        FetchIosRss.applyDeltaPass (FetchIosRss.load_prev_rank dates dateStr store) rows
          = rows.map (FetchIosRss.deltaRow (FetchIosRss.buildRankMap payload.rows))
        ∧ ((∀ q ∈ payload.rows, 1 ≤ q.rank) →
            (payload.rows.map FetchIosRss.PrevRow.app_id).Nodup →
            ∀ r ∈ rows,
              (∀ q ∈ payload.rows, q.app_id = r.app_id →
                (FetchIosRss.deltaRow (FetchIosRss.buildRankMap payload.rows) r).delta
                  = q.rank - r.rank)
              ∧ ((∀ q ∈ payload.rows, q.app_id ≠ r.app_id) →
                (FetchIosRss.deltaRow (FetchIosRss.buildRankMap payload.rows) r).delta = 0))) := by
  constructor
  · intro h
    rw [h]
    exact ⟨rfl, h0⟩
  · intro prevDate payload hpd hst
    have hload : FetchIosRss.load_prev_rank dates dateStr store
        = some (FetchIosRss.buildRankMap payload.rows) := by
      simp [FetchIosRss.load_prev_rank, hpd, hst]
    constructor
    · rw [hload]
      by_cases hm : FetchIosRss.buildRankMap payload.rows = []
      · rw [hm]
        simp [FetchIosRss.applyDeltaPass, FetchIosRss.map_deltaRow_nil]
      · simp [FetchIosRss.applyDeltaPass, hm]
    · intro hqpos hnodup r hr
      constructor
      · intro q hq hqid
        have hlk := FetchIosRss.buildRankMap_dlookup_of_mem hnodup hq
        rw [hqid] at hlk
        have h1 : q.rank ≠ 0 := by have := hqpos q hq; omega
        have h2 : r.rank ≠ 0 := by have := hcur r hr; omega
        simp [FetchIosRss.deltaRow, hlk, h1, h2]
      · intro hnone
        have hlk := FetchIosRss.buildRankMap_dlookup_of_not_mem hnone
        simp [FetchIosRss.deltaRow, hlk, h0 r hr]

/-- C4 witness: with predecessor snapshot `[a ↦ rank 5]` and today's row
`a` at rank `2`, the delta pass assigns `delta = 5 - 2 = 3`. -/
theorem c4_delta_engine_witness :
    (FetchIosRss.deltaRow (FetchIosRss.buildRankMap [⟨"a", 5⟩])
      ⟨2, "a", "A", "A", "dev", "Games", 0, false, none⟩).delta = 5 - 2 := by
  have h := (c4_delta_engine ["20250102", "20250101"] "20250102"
      (fun d => if d = "20250101" then some ⟨[⟨"a", 5⟩]⟩ else none)
      [⟨2, "a", "A", "A", "dev", "Games", 0, false, none⟩]
      (by decide) (by decide)).2 "20250101" ⟨[⟨"a", 5⟩]⟩ (by decide) (by decide)
  exact (h.2 (by decide) (by decide)
      ⟨2, "a", "A", "A", "dev", "Games", 0, false, none⟩ (by decide)).1 ⟨"a", 5⟩ (by decide) rfl

/-!
## Claim C8: predecessor lookup in the date index
-/

/-- C8 counterexample: the claim as stated fails on the empty-string
entry.  The index `[""]` is sorted descending and deduplicated, the query
`"20250101"` is absent, and `""` is the first entry lexicographically
less than the query, yet `prevDateOf` reports absence because the code's
`if not prev_date_str` truthiness check discards the falsy empty
string. -/
theorem c8_counterexample :
    List.Pairwise (fun a b : String => pyLt b a = true) [""]
    ∧ ([""] : List String).Nodup
    ∧ "20250101" ∉ ([""] : List String)
    ∧ [""].find? (fun d => pyLt d "20250101") = some ""
    ∧ FetchIosRss.prevDateOf [""] "20250101" = none :=
  ⟨List.pairwise_singleton _ _, by decide, by decide, by decide, by decide⟩

/-- C8 (amended): for a date index sorted descending and deduplicated
whose entries are nonempty, predecessor lookup returns a result strictly
less than the query or reports absence; when the query is present the
result is the entry immediately following it in descending order, and
when it is absent the result is the first entry lexicographically less
than the query. -/
theorem c8_predecessor_lookup (dates : List String) (q : String)
    (hsort : List.Pairwise (fun a b => pyLt b a = true) dates)
    (hne : ∀ d ∈ dates, d ≠ "") :
    (∀ r, FetchIosRss.prevDateOf dates q = some r → pyLt r q = true)
    ∧ (∀ pre post, dates = pre ++ q :: post →
        FetchIosRss.prevDateOf dates q = post.head?)
    ∧ (q ∉ dates →
        FetchIosRss.prevDateOf dates q = dates.find? (fun d => pyLt d q)) := by
  have h2 : ∀ pre post, dates = pre ++ q :: post →
      FetchIosRss.prevDateOf dates q = post.head? := by
    intro pre post hdec
    subst hdec
    have hpre : ∀ a ∈ pre, a ≠ q := by
      intro a ha he
      have hlt := (List.pairwise_append.mp hsort).2.2 a ha q (List.mem_cons_self _ _)
      rw [he, pyLt_irrefl] at hlt
      cases hlt
    simp only [FetchIosRss.prevDateOf, pyIndex_append_cons pre post q hpre]
    rw [List.getElem?_append_right (by omega)]
    have hone : pre.length + 1 - pre.length = 1 := by omega
    rw [hone, List.getElem?_cons_succ, List.head?_eq_getElem?]
  have h3 : q ∉ dates →
      FetchIosRss.prevDateOf dates q = dates.find? (fun d => pyLt d q) := by
    intro hq
    have hidx : pyIndex dates q = none := (pyIndex_eq_none_iff dates q).mpr hq
    simp only [FetchIosRss.prevDateOf, hidx]
    cases hf : dates.find? (fun d => pyLt d q) with
    | none => rfl
    | some d =>
      have hd : d ≠ "" := hne d (List.mem_of_find?_eq_some hf)
      simp [hd]
  refine ⟨?_, h2, h3⟩
  intro r hr
  by_cases hq : q ∈ dates
  · obtain ⟨pre, post, hdec⟩ := List.append_of_mem hq
    rw [h2 pre post hdec] at hr
    have hrpost : r ∈ post := by
      cases post with
      | nil => cases hr
      | cons a t =>
        rw [List.head?_cons] at hr
        rw [← Option.some.inj hr]
        exact List.mem_cons_self _ _
    rw [hdec] at hsort
    have hpq := (List.pairwise_append.mp hsort).2.1
    exact (List.pairwise_cons.mp hpq).1 r hrpost
  · rw [h3 hq] at hr
    have hfs := List.find?_some hr
    exact hfs

/-- C8 witness for the amended claim: in the sorted index
`["20250103", "20250101"]` the absent query `"20250102"` resolves to the
first entry below it. -/
theorem c8_predecessor_lookup_witness :
    FetchIosRss.prevDateOf ["20250103", "20250101"] "20250102"
      = ["20250103", "20250101"].find? (fun d => pyLt d "20250102") :=
  (c8_predecessor_lookup ["20250103", "20250101"] "20250102"
    (by decide) (by decide)).2.2 (by decide)

/-!
## Claim C9: update-detector scope
-/

/-- C9: `process_date_pair` emits an event only for an app among the
first `TOP_LIMIT = 50` rows of the current snapshot (with truthy id and
name), and only when the baseline dict it loaded has an entry under the
same `app_name` whose `version` or `updated` differs; `detect_updates`
consults the baseline only through `app_name` lookups, so baselines
agreeing on today's names are indistinguishable. -/
theorem c9_update_detector (fetchMeta : String → Option FetchAppUpdates.MetaInfo)
    (platform : String) (tr yr : Option FetchAppUpdates.RankPayload)
    (updArt mcArt : Dict FetchAppUpdates.MetaInfo) :
    (∀ p ∈ (FetchAppUpdates.process_date_pair fetchMeta platform tr yr updArt mcArt).1,
        (∃ r ∈ (FetchAppUpdates.rowsOf tr).take FetchAppUpdates.TOP_LIMIT,
            r.app_name = p.1 ∧ r.app_id ≠ "")
        ∧ ∃ y, dlookup updArt p.1 = some y
            ∧ (p.2.info.version ≠ y.version ∨ p.2.info.updated ≠ y.updated))
    ∧ (∀ td yd yd' : Dict FetchAppUpdates.MetaInfo,
        (∀ q ∈ td, dlookup yd q.1 = dlookup yd' q.1) →
        FetchAppUpdates.detect_updates td yd = FetchAppUpdates.detect_updates td yd') := by
  constructor
  · intro p hp
    cases tr with
    | none => simp [FetchAppUpdates.process_date_pair] at hp
    | some today =>
      cases yr with
      | none => simp [FetchAppUpdates.process_date_pair] at hp
      | some yday =>
        simp only [FetchAppUpdates.process_date_pair] at hp
        by_cases hua : FetchAppUpdates.union_apps_of today.rows = []
        · rw [if_pos hua] at hp
          simp at hp
        · rw [if_neg hua] at hp
          rcases mem_foldInsert hp with hinit | ⟨q, hq, hgq⟩
          · simp at hinit
          · cases hy : dlookup updArt q.1 with
            | none => simp [hy] at hgq
            | some y =>
              simp only [hy] at hgq
              by_cases hdiff : q.2.version ≠ y.version ∨ q.2.updated ≠ y.updated
              · rw [if_pos hdiff] at hgq
                have hpq := (Option.some.inj hgq).symm
                subst hpq
                refine ⟨?_, y, hy, hdiff⟩
                by_cases hplat : platform = "ios"
                · rw [if_pos hplat] at hq
                  rcases mem_foldInsert hq with hinit | ⟨u, hu, hgu⟩
                  · simp at hinit
                  · cases hfm : fetchMeta u.1 with
                    | none => simp [hfm] at hgu
                    | some info =>
                      simp only [hfm, Option.map_some'] at hgu
                      have hq2 := (Option.some.inj hgu).symm
                      rcases mem_foldInsert hu with hinit | ⟨r, hr, hgr⟩
                      · simp at hinit
                      · by_cases hc : r.app_id ≠ "" ∧ r.app_name ≠ ""
                        · rw [if_pos hc] at hgr
                          have hu2 := (Option.some.inj hgr).symm
                          refine ⟨r, hr, ?_, hc.1⟩
                          rw [hq2, hu2]
                        · rw [if_neg hc] at hgr
                          cases hgr
                · rw [if_neg hplat] at hq
                  simp at hq
              · rw [if_neg hdiff] at hgq
                cases hgq
  · intro td yd yd' hcong
    simp only [FetchAppUpdates.detect_updates]
    apply foldInsert_congr
    intro x hx
    rw [hcong x hx]

/-- C9 witness: with app `AppA` (id `1`) in today's top 50, a fetched
version `2.0` against a baseline entry at `1.0`, the emitted event is for
an app of the candidate set with a differing baseline entry. -/
theorem c9_update_detector_witness :
    (∃ r ∈ (FetchAppUpdates.rowsOf
        (some ⟨[⟨"1", "AppA"⟩]⟩)).take FetchAppUpdates.TOP_LIMIT,
        r.app_name = "AppA" ∧ r.app_id ≠ "")
    ∧ ∃ y, dlookup [("AppA",
          FetchAppUpdates.MetaInfo.mk (some "1.0") (some "U1") "" (some "1"))] "AppA"
        = some y
      ∧ ((FetchAppUpdates.MetaInfo.mk (some "2.0") (some "U2") "" (some "1")).version
            ≠ y.version
        ∨ (FetchAppUpdates.MetaInfo.mk (some "2.0") (some "U2") "" (some "1")).updated
            ≠ y.updated) :=
  (c9_update_detector
    (fun i => if i = "1"
      then some (FetchAppUpdates.MetaInfo.mk (some "2.0") (some "U2") "" (some "1"))
      else none)
    "ios" (some ⟨[⟨"1", "AppA"⟩]⟩) (some ⟨[]⟩)
    [("AppA", FetchAppUpdates.MetaInfo.mk (some "1.0") (some "U1") "" (some "1"))] []).1
    ("AppA", FetchAppUpdates.UpdateEvent.mk
      (FetchAppUpdates.MetaInfo.mk (some "2.0") (some "U2") "" (some "1")) "版本更新")
    (by decide)

/-!
## Claim C1: which artifact the update detector compares against
-/

/-- C1 (code bug): `process_date_pair` compares today's fetched metadata
against the content of `updates_{yday}.json` (yesterday's emitted
events), not against the metadata baseline `metadata_cache_{yday}.json`
that `main` persists as "the baseline for the next run" and never reads.
Concretely: the baseline artifact holds `AppA` at version `1.0`, today's
fetch returns `2.0`, yesterday's updates file is empty — the code emits
no event (first conjunct) although comparing against the persisted
metadata baseline would emit one (second conjunct), and the output is
entirely independent of the metadata-cache artifact (third conjunct). -/
theorem c1_update_baseline_bug :
    (FetchAppUpdates.process_date_pair
        (fun i => if i = "1"
          then some (FetchAppUpdates.MetaInfo.mk (some "2.0") (some "U2") "" (some "1"))
          else none)
        "ios" (some ⟨[⟨"1", "AppA"⟩]⟩) (some ⟨[]⟩) []
        [("AppA", FetchAppUpdates.MetaInfo.mk (some "1.0") (some "U1") "" (some "1"))]).1
      = []
    ∧ FetchAppUpdates.detect_updates
        (FetchAppUpdates.process_date_pair
          (fun i => if i = "1"
            then some (FetchAppUpdates.MetaInfo.mk (some "2.0") (some "U2") "" (some "1"))
            else none)
          "ios" (some ⟨[⟨"1", "AppA"⟩]⟩) (some ⟨[]⟩) []
          [("AppA", FetchAppUpdates.MetaInfo.mk (some "1.0") (some "U1") "" (some "1"))]).2
        [("AppA", FetchAppUpdates.MetaInfo.mk (some "1.0") (some "U1") "" (some "1"))]
      = [("AppA", FetchAppUpdates.UpdateEvent.mk
          (FetchAppUpdates.MetaInfo.mk (some "2.0") (some "U2") "" (some "1")) "版本更新")]
    ∧ FetchAppUpdates.process_date_pair
        (fun i => if i = "1"
          then some (FetchAppUpdates.MetaInfo.mk (some "2.0") (some "U2") "" (some "1"))
          else none)
        "ios" (some ⟨[⟨"1", "AppA"⟩]⟩) (some ⟨[]⟩) []
        [("AppA", FetchAppUpdates.MetaInfo.mk (some "1.0") (some "U1") "" (some "1"))]
      = FetchAppUpdates.process_date_pair
        (fun i => if i = "1"
          then some (FetchAppUpdates.MetaInfo.mk (some "2.0") (some "U2") "" (some "1"))
          else none)
        "ios" (some ⟨[⟨"1", "AppA"⟩]⟩) (some ⟨[]⟩) [] [] :=
  ⟨rfl, rfl, rfl⟩

/-!
## Claim C2: missing data is supposed to be non-fatal
-/

/-- C2 (code bug): a country folder whose only rank-snapshot file is
unparsable makes every loop iteration `continue` before the line
`is_cache_updated = False`, so `return is_cache_updated` raises
`UnboundLocalError` instead of completing normally, and `main` has no
handler, so the exception aborts the whole run. -/
theorem c2_missing_data_bug :
    ClassifyGames.process_country_folder (fun _ => "其他")
        [⟨"ios_tw_top_free_20250101.json", none⟩] []
      = Except.error ClassifyGames.PyError.unboundLocal
    ∧ ClassifyGames.classify_main (fun _ => "其他") [] false
        [[⟨"ios_tw_top_free_20250101.json", none⟩]]
      = Except.error ClassifyGames.PyError.unboundLocal :=
  ⟨rfl, rfl⟩

/-!
## Claim C3: when the category cache is persisted
-/

/-- C3 (code bug): `is_cache_updated` is reinitialised inside the file
loop, so `process_country_folder` returns only the **last** processed
file's flag.  With two snapshot files where the first classifies a new
app `X` (added to the cache) and the second finds everything cached, the
folder returns `false`, so `main` never calls `save_json` even though a
new non-override entry was added during the run. -/
theorem c3_cache_save_flag_bug :
    ClassifyGames.process_country_folder (fun _ => "其他")
        [⟨"ios_tw_top_free_20250101.json",
            some ⟨[⟨"X", "XGame", "Games", none⟩], "top_free", "TW", some "2025-01-01"⟩⟩,
         ⟨"ios_tw_top_free_20250102.json",
            some ⟨[⟨"X", "XGame", "Games", none⟩], "top_free", "TW", some "2025-01-02"⟩⟩] []
      = Except.ok (false, [("X", "其他")])
    ∧ ClassifyGames.classify_main (fun _ => "其他") [] false
        [[⟨"ios_tw_top_free_20250101.json",
            some ⟨[⟨"X", "XGame", "Games", none⟩], "top_free", "TW", some "2025-01-01"⟩⟩,
          ⟨"ios_tw_top_free_20250102.json",
            some ⟨[⟨"X", "XGame", "Games", none⟩], "top_free", "TW", some "2025-01-02"⟩⟩]]
      = Except.ok (false, [("X", "其他")]) :=
  ⟨rfl, rfl⟩
